import Mathlib

/-!
Verification development for the med-rag retrieval / generation / evaluation
pipeline.  The Python sources (`src/vector_store.py`, `src/evaluation.py`,
`src/schema.py`, `src/llm.py`, `src/pipeline.py`) are shallowly embedded:

* Python floats are modelled by exact rationals (`ℚ`); the claims settled here
  concern selection, ordering and control flow, none of which depend on
  float rounding.
* Python lists are Lean lists; the negative-index semantics of Python is modelled
  explicitly (`pyIndex`), since `faiss` returns `-1` indices when an index
  holds fewer than `k` vectors.
* fallible operations return `Except`/`Option`; a raised Python exception is
  an `.error` value.
* the external `faiss.IndexFlatL2` behaviour is modelled from its documented
  contract: exhaustive scan, squared-L2 distances, the `k` smallest distances
  in ascending order (ties resolved towards earlier insertion, as the spec
  states), and missing slots padded with label `-1` and distance `FLT_MAX`.
-/

/-- Whitespace as the Python functions `str.strip()` / `str.isspace()` see it (the
Unicode whitespace code points).  Used by `str.strip()` and by the regex
class `\s` in `re` (both agree on these code points). -/
def pyIsSpace (c : Char) : Bool :=
  c = ' ' || c = '\t' || c = '\n' || c = '\x0b' || c = '\x0c' || c = '\r' ||
  c = '\x1c' || c = '\x1d' || c = '\x1e' || c = '\x1f' ||
  c = '\x85' || c = '\xa0' || c = '\u1680' ||
  ('\u2000' ≤ c && c ≤ '\u200a') ||
  c = '\u2028' || c = '\u2029' || c = '\u202f' || c = '\u205f' || c = '\u3000'

/-- Python `str.strip()` on a character list: drop leading and trailing
whitespace. -/
def pyStrip (l : List Char) : List Char :=
  ((l.dropWhile pyIsSpace).reverse.dropWhile pyIsSpace).reverse

/-- The Python substring test `needle in hay` (`str.__contains__`). -/
def pyIn (needle : List Char) : List Char → Bool
  | [] => needle.isEmpty
  | c :: rest => needle.isPrefixOf (c :: rest) || pyIn needle rest

/-- Python list indexing `l[i]`: negative indices count from the end;
out-of-range access raises `IndexError`, modelled by `none`. -/
def pyIndex {α : Type} (l : List α) (i : ℤ) : Option α :=
  if 0 ≤ i then l.get? i.toNat
  else if -(l.length : ℤ) ≤ i then l.get? (l.length - (-i).toNat)
  else none

/-- A `{pmid, text}` record, the shape of chunks handed to the generation
stage (`retrieved_chunks` entries in `src/llm.py`). -/
structure Chunk where
  pmid : String
  text : String
deriving DecidableEq, Repr

/-- One entry of `VectorStore.metadata`: the code stores dictionaries
holding a single `"pmid"` key (`src/vector_store.py`, `src/app_state.py`). -/
structure Meta where
  pmid : String
deriving DecidableEq, Repr

/-- One element of the list returned by `VectorStore.search`
(`{"text": ..., "pmid": ..., "score": ...}`). -/
structure RetrievalResult where
  text : String
  pmid : String
  score : ℚ
deriving DecidableEq, Repr

/-- The in-memory vector index of `src/vector_store.py`: a
`faiss.IndexFlatL2(dim)` (its stored vectors are `vecs`) plus the parallel
Python lists `texts` and `metadata`. -/
structure VectorStore where
  dim : ℕ
  vecs : List (List ℚ)
  texts : List String
  metadata : List Meta
deriving DecidableEq, Repr

/-- Embeds `VectorStore.__init__(dim)`: empty faiss index, empty parallel lists. -/
def VectorStore.init (dim : ℕ) : VectorStore :=
  { dim := dim, vecs := [], texts := [], metadata := [] }

/-- Squared L2 distance, the score `faiss.IndexFlatL2` computes and the code
stores under `"score"` (the comment in the code calls it "L2 distance"; faiss
returns the square, which induces the same ordering). -/
def sqL2 (a b : List ℚ) : ℚ :=
  (List.zipWith (fun x y => (x - y) ^ 2) a b).sum

/-- The distance value faiss reports for padding slots when fewer than `k`
vectors are stored: `FLT_MAX` (largest finite `float32`). -/
def FLT_MAX : ℚ := 340282346638528859811704183484516925440

/-- Comparison used to rank scored entries: ascending distance, ties towards
the earlier insertion index. -/
def rrLe (a b : ℚ × ℤ) : Prop :=
  a.1 < b.1 ∨ (a.1 = b.1 ∧ a.2 ≤ b.2)

instance : DecidableRel rrLe := fun a b => by
  unfold rrLe; infer_instance

instance : IsTotal (ℚ × ℤ) rrLe where
  total a b := by
    rcases lt_trichotomy a.1 b.1 with h | h | h
    · exact Or.inl (Or.inl h)
    · rcases le_total a.2 b.2 with h2 | h2
      · exact Or.inl (Or.inr ⟨h, h2⟩)
      · exact Or.inr (Or.inr ⟨h.symm, h2⟩)
    · exact Or.inr (Or.inl h)

instance : IsTrans (ℚ × ℤ) rrLe where
  trans a b c hab hbc := by
    rcases hab with h1 | ⟨h1, h1'⟩
    · rcases hbc with h2 | ⟨h2, _⟩
      · exact Or.inl (h1.trans h2)
      · exact Or.inl (h2 ▸ h1)
    · rcases hbc with h2 | ⟨h2, h2'⟩
      · exact Or.inl (h1 ▸ h2)
      · exact Or.inr ⟨h1.trans h2, h1'.trans h2'⟩

/-- Model of `faiss.IndexFlatL2.search(query, k)` on stored vectors `vecs`:
the `k` flat pairs `(distance, index)` with smallest squared-L2 distance in
ascending order (ties towards earlier insertion), padded with
`(FLT_MAX, -1)` slots when fewer than `k` vectors are stored — the documented
behaviour of faiss when not enough results exist. -/
def faissTopK (vecs : List (List ℚ)) (q : List ℚ) (k : ℕ) : List (ℚ × ℤ) :=
  let scored := vecs.enum.map (fun p => (sqL2 q p.2, (p.1 : ℤ)))
  let top := (List.insertionSort rrLe scored).take k
  top ++ List.replicate (k - top.length) (FLT_MAX, -1)

/-- Threshold test of the loop in `VectorStore.search`: an entry is skipped
when a threshold is supplied and its distance exceeds it. -/
def threshSkip (threshold : Option ℚ) (d : ℚ) : Bool :=
  match threshold with
  | some t => decide (d > t)
  | none => false

/-- Errors `VectorStore.search` can raise: a dimension mismatch raised by
faiss, or the Python `IndexError` from `self.texts[idx]`. -/
inductive SearchError where
  | dimensionMismatch
  | indexError
deriving DecidableEq, Repr

/-- The result loop of `VectorStore.search`: for each `(distance, idx)` pair
skip it when above the threshold, otherwise append
`{"text": texts[idx], "pmid": metadata[idx]["pmid"], "score": distance}`;
an out-of-range index raises `IndexError` and discards everything. -/
def searchLoop (texts : List String) (metadata : List Meta)
    (threshold : Option ℚ) : List (ℚ × ℤ) → Except SearchError (List RetrievalResult)
  | [] => .ok []
  | (d, idx) :: rest =>
    if threshSkip threshold d then searchLoop texts metadata threshold rest
    else
      match pyIndex texts idx, pyIndex metadata idx with
      | some tx, some m =>
        match searchLoop texts metadata threshold rest with
        | .ok tail => .ok ({ text := tx, pmid := m.pmid, score := d } :: tail)
        | .error e => .error e
      | _, _ => .error .indexError

/-- Embeds `VectorStore.search(query_embedding, k=5, score_threshold=None)`
(`src/vector_store.py` lines 19–49).  faiss raises when the query length
differs from `dim`; otherwise the top-`k` `(distance, index)` pairs are
turned into result records by the loop above. -/
def VectorStore.search (s : VectorStore) (q : List ℚ) (k : ℕ := 5)
    (threshold : Option ℚ := none) : Except SearchError (List RetrievalResult) :=
  if q.length ≠ s.dim then .error .dimensionMismatch
  else searchLoop s.texts s.metadata threshold (faissTopK s.vecs q k)

/-- Error raised by `faiss`/`numpy` inside `VectorStore.add` when the batch
of embeddings is empty, ragged, or of the wrong width (a
`ValueError`/`AssertionError` in Python; the spec calls it
DimensionMismatch). -/
inductive AddError where
  | dimensionMismatch
deriving DecidableEq, Repr

/-- Embeds `VectorStore.add(embeddings, texts, metadata)` (`src/vector_store.py`
lines 14–17).  The statements run in order: `self.index.add(...)` first —
it raises unless the batch is a non-empty rectangle of width `dim` — and
only then are `texts` and `metadata` extended.  The returned pair is
(raised error if any, state of the store afterwards). -/
def VectorStore.add (s : VectorStore) (embeddings : List (List ℚ))
    (texts : List String) (metadata : List Meta) :
    Option AddError × VectorStore :=
  if embeddings.isEmpty || embeddings.any (fun e => e.length ≠ s.dim) then
    (some .dimensionMismatch, s)
  else
    (none, { s with vecs := s.vecs ++ embeddings,
                    texts := s.texts ++ texts,
                    metadata := s.metadata ++ metadata })

/-- Well-formedness of a store: the parallel lists have equal length and all
stored vectors have the index dimension (the invariant `add` maintains on
its success path). -/
def VectorStore.WF (s : VectorStore) : Prop :=
  s.texts.length = s.vecs.length ∧ s.metadata.length = s.vecs.length ∧
    ∀ v ∈ s.vecs, v.length = s.dim

/-- Turn a ranked `(distance, index)` pair into a result record by direct
(total) lookup into the parallel lists. -/
def specEntry (s : VectorStore) (p : ℚ × ℤ) : Option RetrievalResult :=
  match s.texts.get? p.2.toNat, s.metadata.get? p.2.toNat with
  | some tx, some m => some { text := tx, pmid := m.pmid, score := p.1 }
  | _, _ => none

/-- Search result demanded by the words of the spec (§4.1): L2 distance to
every stored embedding, the `k` entries with smallest distance ascending
with ties broken by insertion order, and, when a threshold is supplied,
entries with distance strictly greater than the threshold excluded. -/
def spec_search (s : VectorStore) (q : List ℚ) (k : ℕ)
    (threshold : Option ℚ) : List RetrievalResult :=
  let scored := s.vecs.enum.map (fun p => (sqL2 q p.2, (p.1 : ℤ)))
  let ranked := (List.insertionSort rrLe scored).take k
  let kept := ranked.filter (fun p => !threshSkip threshold p.1)
  kept.filterMap (specEntry s)

/-- Errors of `build_index` in `src/pipeline.py`: `len(embeddings[0])` on an
empty batch raises `IndexError`; `store.add(embeddings, all_chunks)`
supplies two arguments to the three-parameter
`VectorStore.add(embeddings, texts, metadata)`, which Python rejects with
`TypeError` before anything executes. -/
inductive BuildError where
  | indexErrorNoEmbeddings
  | typeErrorAddArity
deriving DecidableEq, Repr

/-- Embeds `build_index(query)` (`src/pipeline.py` lines 17–31).  The collaborators
are parameters: `fetch_pubmed` (network access to PubMed, `src/ingestion.py`),
`chunk_text` (imported from `src.chunking`, a module absent from the
repository — the spec lists text segmentation as an external collaborator)
and the sentence-transformer embedder.  The body gathers all chunks, embeds
them, creates `VectorStore(dim=len(embeddings[0]))` and then calls
`store.add(embeddings, all_chunks)` — two arguments for a method that
requires `(embeddings, texts, metadata)`, so Python raises `TypeError` on
every input that reaches the call. -/
def build_index (query : String) (fetch_pubmed : String → List Chunk)
    (chunk_text : String → List String)
    (embed : List String → List (List ℚ)) : Except BuildError VectorStore :=
  let abstracts := fetch_pubmed query
  let all_chunks := abstracts.foldl (fun acc doc => acc ++ chunk_text doc.text) []
  let embeddings := embed all_chunks
  match embeddings with
  | [] => .error .indexErrorNoEmbeddings
  | e0 :: _ =>
    let _store := VectorStore.init e0.length
    .error .typeErrorAddArity

/-- Embeds `retrieval_recall(retrieved_pmids, ground_truth_pmids)`
(`src/evaluation.py` lines 7–12): `-1.0` when no ground truth, otherwise
`len(set(retrieved) & set(ground_truth)) / len(ground_truth_pmids)` — note
the denominator is the length of the ground-truth *list*. -/
def retrieval_recall (retrieved_pmids ground_truth_pmids : List String) : ℚ :=
  if ground_truth_pmids.isEmpty then -1
  else
    ((retrieved_pmids.dedup.filter
        (fun p => ground_truth_pmids.contains p)).length : ℚ) /
      (ground_truth_pmids.length : ℚ)

/-- Recall as the spec words it (§4.3): sentinel `-1.0` without ground
truth, otherwise intersection size over the size of the ground-truth *set*
(duplicate pmids counted once). -/
def spec_retrieval_recall (retrieved ground_truth : List String) : ℚ :=
  if ground_truth.isEmpty then -1
  else ((retrieved.toFinset ∩ ground_truth.toFinset).card : ℚ) /
    (ground_truth.toFinset.card : ℚ)

/-- Failure of a call into the external LLM backend (`LLMClient.generate`
raises on API errors). -/
inductive GenError where
  | failure (msg : String)
deriving DecidableEq, Repr

/-- The external generation backend (`LLMClient.generate`): arguments are
prompt, temperature and `json_mode`; an exception is an `.error`. -/
abbrev GenClient := String → ℚ → Bool → Except GenError String

/-- Python `str.upper()` (modelled on the ASCII range, which is all the
tokens compared against use). -/
def pyUpper (l : List Char) : List Char := l.map Char.toUpper

/-- The binary-classification prompt built by `check_faithfulness`
(`src/evaluation.py` lines 43–59). -/
def faithfulnessPrompt (answer context : String) : String :=
  "You are evaluating whether an answer is grounded in the provided context.\n\n" ++
  "Your task: Determine if the answer contains ANY claims that are NOT supported by the context.\n\n" ++
  "Answer:\n" ++ answer ++ "\n\n" ++
  "Context:\n" ++ context ++ "\n\n" ++
  "Instructions:\n" ++
  "1. Read the answer carefully\n" ++
  "2. Check if EVERY claim in the answer is supported by the context\n" ++
  "3. If the answer invents facts, makes unsupported claims, or goes beyond the context, respond \"YES\"\n" ++
  "4. If the answer only uses information from the context, respond \"NO\"\n\n" ++
  "Respond with ONLY one word: YES or NO"

/-- Embeds `check_faithfulness(llm_client, answer, context)` (`src/evaluation.py`
lines 31–78): call the backend with temperature `0.0` and
`json_mode=False`; strip and uppercase the response; `"NO"` as a substring
means faithful, else `"YES"` as a substring means unfaithful, else the
conservative default `False`; any exception from the backend is caught and
mapped to `False`. -/
def check_faithfulness (llm_client : GenClient) (answer context : String) : Bool :=
  match llm_client (faithfulnessPrompt answer context) 0 false with
  | .error _ => false
  | .ok result =>
    let result_clean := pyUpper (pyStrip result.toList)
    if pyIn ("NO".toList) result_clean then true
    else if pyIn ("YES".toList) result_clean then false
    else false

/-- Step 1 of `sanitize_text` (`src/llm.py` line 108):
`text.replace('\t', ' ')`. -/
def replaceTab (l : List Char) : List Char :=
  l.map (fun c => if c = '\t' then ' ' else c)

/-- Character class of `re.sub(r"[\x00-\x09\x0B-\x1F\x7F]", "", text)`
(`src/llm.py` line 111): control characters except newline, plus DEL. -/
def isCtrlRemoved (c : Char) : Bool :=
  c.toNat ≤ 9 || (11 ≤ c.toNat && c.toNat ≤ 31) || c.toNat == 127

/-- Step 2 of `sanitize_text`: remove the control characters above. -/
def removeCtrl (l : List Char) : List Char :=
  l.filter (fun c => !isCtrlRemoved c)

/-- Step 3 of `sanitize_text` (`src/llm.py` line 113):
`re.sub(r" +", " ", text)` — each maximal run of spaces becomes one space
(a space is dropped exactly when another space follows it). -/
def collapseSpaces : List Char → List Char
  | [] => []
  | c :: rest =>
    if c = ' ' ∧ rest.head? = some ' ' then collapseSpaces rest
    else c :: collapseSpaces rest

/-- Step 4 of `sanitize_text` (`src/llm.py` line 115):
`re.sub(r"\n\n+", "\n\n", text)` — each maximal run of two or more
newlines becomes two (a newline is dropped exactly when two more follow). -/
def collapseNewlines : List Char → List Char
  | [] => []
  | c :: rest =>
    if c = '\n' ∧ rest.head? = some '\n' ∧ rest.tail.head? = some '\n' then
      collapseNewlines rest
    else c :: collapseNewlines rest

/-- Embeds `sanitize_text(text)` (`src/llm.py` lines 104–116): tab replacement,
control-character removal, space-run collapsing, blank-line collapsing,
final `strip()`. -/
def sanitize_text (text : String) : String :=
  String.mk (pyStrip (collapseNewlines (collapseSpaces (removeCtrl (replaceTab text.toList)))))

/-- A decimal number as `json.loads` reads one (`-?(0|[1-9]\d*)(\.\d+)?([eE][-+]?\d+)?`),
kept as mantissa and power-of-ten exponent; its value is
`mantissa * 10 ^ exp10`. -/
structure JNum where
  mantissa : ℤ
  exp10 : ℤ
deriving DecidableEq, Repr

/-- Numeric value of a parsed decimal number. -/
def JNum.toRat (n : JNum) : ℚ := (n.mantissa : ℚ) * (10 : ℚ) ^ n.exp10

/-- JSON values as `json.loads` produces them (dicts keep insertion order;
duplicate keys resolved by last occurrence at lookup time). -/
inductive Json where
  | null
  | bool (b : Bool)
  | num (n : JNum)
  | str (s : String)
  | arr (elems : List Json)
  | obj (members : List (String × Json))

/-- JSON whitespace (`[ \t\n\r]`, the only characters `json.loads` skips). -/
def jWs (c : Char) : Bool := c = ' ' || c = '\t' || c = '\n' || c = '\r'

/-- Skip JSON whitespace. -/
def skipW (l : List Char) : List Char := l.dropWhile jWs

/-- Value of a hexadecimal digit. -/
def hexVal (c : Char) : Option ℕ :=
  if '0' ≤ c ∧ c ≤ '9' then some (c.toNat - 48)
  else if 'a' ≤ c ∧ c ≤ 'f' then some (c.toNat - 87)
  else if 'A' ≤ c ∧ c ≤ 'F' then some (c.toNat - 55)
  else none

/-- Decimal digit test. -/
def isDig (c : Char) : Bool := '0' ≤ c && c ≤ '9'

/-- Numeric value of a digit run (most significant first). -/
def digitsToNat (acc : ℕ) : List Char → ℕ
  | [] => acc
  | c :: rest => digitsToNat (acc * 10 + (c.toNat - 48)) rest

/-- Body of a JSON string after the opening quote, in strict mode: raw
control characters below `0x20` are rejected, escapes are the JSON ones.
Surrogate escape pairs are combined; a lone surrogate is rejected (Python
keeps it — no Lean `Char` exists for it; the strings settled here use
none). Returns the content and the input after the closing quote. -/
def parseJStrBody : List Char → Option (List Char × List Char)
  | [] => none
  | '"' :: rest => some ([], rest)
  | '\\' :: '"' :: r => (parseJStrBody r).map (fun p => ('"' :: p.1, p.2))
  | '\\' :: '\\' :: r => (parseJStrBody r).map (fun p => ('\\' :: p.1, p.2))
  | '\\' :: '/' :: r => (parseJStrBody r).map (fun p => ('/' :: p.1, p.2))
  | '\\' :: 'b' :: r => (parseJStrBody r).map (fun p => ('\x08' :: p.1, p.2))
  | '\\' :: 'f' :: r => (parseJStrBody r).map (fun p => ('\x0c' :: p.1, p.2))
  | '\\' :: 'n' :: r => (parseJStrBody r).map (fun p => ('\n' :: p.1, p.2))
  | '\\' :: 'r' :: r => (parseJStrBody r).map (fun p => ('\r' :: p.1, p.2))
  | '\\' :: 't' :: r => (parseJStrBody r).map (fun p => ('\t' :: p.1, p.2))
  | '\\' :: 'u' :: h1 :: h2 :: h3 :: h4 :: r =>
    match hexVal h1, hexVal h2, hexVal h3, hexVal h4 with
    | some a, some b, some c, some d =>
      let n := ((a * 16 + b) * 16 + c) * 16 + d
      if n < 0xd800 ∨ 0xe000 ≤ n then
        (parseJStrBody r).map (fun p => (Char.ofNat n :: p.1, p.2))
      else if n ≤ 0xdbff then
        match r with
        | '\\' :: 'u' :: g1 :: g2 :: g3 :: g4 :: r2 =>
          match hexVal g1, hexVal g2, hexVal g3, hexVal g4 with
          | some a2, some b2, some c2, some d2 =>
            let m := ((a2 * 16 + b2) * 16 + c2) * 16 + d2
            if 0xdc00 ≤ m ∧ m ≤ 0xdfff then
              (parseJStrBody r2).map
                (fun p => (Char.ofNat (0x10000 + (n - 0xd800) * 0x400 + (m - 0xdc00)) :: p.1, p.2))
            else none
          | _, _, _, _ => none
        | _ => none
      else none
    | _, _, _, _ => none
  | '\\' :: _ => none
  | c :: rest =>
    if c.toNat < 32 then none
    else (parseJStrBody rest).map (fun p => (c :: p.1, p.2))

/-- A JSON number (Python regex `(-?(?:0|[1-9]\d*))(\.\d+)?([eE][-+]?\d+)?`):
returns the parsed number and the remaining input. -/
def parseJNum (l : List Char) : Option (JNum × List Char) :=
  let signed : Bool × List Char :=
    match l with
    | '-' :: r => (true, r)
    | _ => (false, l)
  let neg := signed.1
  match signed.2 with
  | [] => none
  | c :: r =>
    if !isDig c then none
    else
      let intPart : ℕ × List Char :=
        if c = '0' then (0, r)
        else
          let ds := r.takeWhile isDig
          (digitsToNat (c.toNat - 48) ds, r.drop ds.length)
      let fracPart : ℕ × ℕ × List Char :=
        match intPart.2 with
        | '.' :: r2 =>
          let ds := r2.takeWhile isDig
          if ds.isEmpty then (0, 0, intPart.2)
          else (digitsToNat 0 ds, ds.length, r2.drop ds.length)
        | _ => (0, 0, intPart.2)
      let hasFrac : Bool :=
        match intPart.2 with
        | '.' :: r2 => !(r2.takeWhile isDig).isEmpty
        | _ => false
      let rest1 := if hasFrac then fracPart.2.2 else intPart.2
      let expPart : ℤ × List Char :=
        match rest1 with
        | e :: r3 =>
          if e = 'e' ∨ e = 'E' then
            match r3 with
            | '+' :: r4 =>
              let ds := r4.takeWhile isDig
              if ds.isEmpty then (0, rest1)
              else ((digitsToNat 0 ds : ℤ), r4.drop ds.length)
            | '-' :: r4 =>
              let ds := r4.takeWhile isDig
              if ds.isEmpty then (0, rest1)
              else (-(digitsToNat 0 ds : ℤ), r4.drop ds.length)
            | _ =>
              let ds := r3.takeWhile isDig
              if ds.isEmpty then (0, rest1)
              else ((digitsToNat 0 ds : ℤ), r3.drop ds.length)
          else (0, rest1)
        | [] => (0, rest1)
      let hasExp : Bool :=
        match rest1 with
        | e :: r3 =>
          if e = 'e' ∨ e = 'E' then
            match r3 with
            | '+' :: r4 => !(r4.takeWhile isDig).isEmpty
            | '-' :: r4 => !(r4.takeWhile isDig).isEmpty
            | _ => !(r3.takeWhile isDig).isEmpty
          else false
        | [] => false
      let rest2 := if hasExp then expPart.2 else rest1
      let mag : ℤ := (intPart.1 * 10 ^ fracPart.2.1 + fracPart.1 : ℕ)
      let mantissa := if neg then -mag else mag
      let exp10 : ℤ := (if hasExp then expPart.1 else 0) - (fracPart.2.1 : ℤ)
      some (⟨mantissa, exp10⟩, rest2)

mutual

/-- One JSON value, expected to start at the head of the input (callers skip
whitespace).  `fuel` bounds the recursion; `jsonParseL` supplies more than
any input can consume. -/
def parseValue (fuel : ℕ) (l : List Char) : Option (Json × List Char) :=
  match fuel with
  | 0 => none
  | fuel + 1 =>
    match l with
    | [] => none
    | '{' :: rest =>
      match skipW rest with
      | '}' :: r => some (.obj [], r)
      | r => parseMembers fuel r
    | '[' :: rest =>
      match skipW rest with
      | ']' :: r => some (.arr [], r)
      | r => parseElems fuel r
    | '"' :: rest =>
      (parseJStrBody rest).map (fun p => (.str (String.mk p.1), p.2))
    | 't' :: 'r' :: 'u' :: 'e' :: rest => some (.bool true, rest)
    | 'f' :: 'a' :: 'l' :: 's' :: 'e' :: rest => some (.bool false, rest)
    | 'n' :: 'u' :: 'l' :: 'l' :: rest => some (.null, rest)
    | c :: _ =>
      if c = '-' ∨ isDig c then
        (parseJNum l).map (fun p => (.num p.1, p.2))
      else none

/-- Members of a JSON object after at least one is required: key string,
colon, value, then a comma-separated tail until the closing brace. -/
def parseMembers (fuel : ℕ) (l : List Char) : Option (Json × List Char) :=
  match fuel with
  | 0 => none
  | fuel + 1 =>
    match l with
    | '"' :: rest =>
      match parseJStrBody rest with
      | some (key, r1) =>
        match skipW r1 with
        | ':' :: r2 =>
          match parseValue fuel (skipW r2) with
          | some (v, r3) =>
            match skipW r3 with
            | ',' :: r4 =>
              match parseMembers fuel (skipW r4) with
              | some (.obj ms, r5) => some (.obj ((String.mk key, v) :: ms), r5)
              | _ => none
            | '}' :: r4 => some (.obj [(String.mk key, v)], r4)
            | _ => none
          | none => none
        | _ => none
      | none => none
    | _ => none

/-- Elements of a JSON array after at least one is required. -/
def parseElems (fuel : ℕ) (l : List Char) : Option (Json × List Char) :=
  match fuel with
  | 0 => none
  | fuel + 1 =>
    match parseValue fuel l with
    | some (v, r1) =>
      match skipW r1 with
      | ',' :: r2 =>
        match parseElems fuel (skipW r2) with
        | some (.arr es, r3) => some (.arr (v :: es), r3)
        | _ => none
      | ']' :: r2 => some (.arr [v], r2)
      | _ => none
    | none => none

end

/-- Embeds `json.loads` on a character list: optional leading whitespace, one
value, optional trailing whitespace, nothing else (`Extra data` otherwise). -/
def jsonParseL (l : List Char) : Option Json :=
  match parseValue ((l.length + 1) * 4) (skipW l) with
  | some (v, rest) => if (skipW rest).isEmpty then some v else none
  | none => none

/-- Embeds `json.loads` on a string. -/
def jsonParse (s : String) : Option Json := jsonParseL s.toList

/-- Embeds `Evidence` of `src/schema.py`: `pmid` and `excerpt` strings. -/
structure Evidence where
  pmid : String
  excerpt : String
deriving DecidableEq, Repr

/-- Embeds `MedicalAnswer` of `src/schema.py`: the pydantic model declares
`question`, `answer_summary`, `evidence`, `confidence` — the float field
carries no range constraint. -/
structure MedicalAnswer where
  question : String
  answer_summary : String
  evidence : List Evidence
  confidence : ℚ
deriving DecidableEq, Repr

/-- Failures of `MedicalAnswer(**parsed)`: the parsed value is not a dict
(`TypeError`), or a required field is missing or of the wrong type
(pydantic `ValidationError`). -/
inductive SchemaErr where
  | notAnObject
  | badField (name : String)
deriving DecidableEq, Repr

/-- Lookup in a parsed JSON object with Python dict semantics: the last
occurrence of a duplicated key wins. -/
def objLookup (members : List (String × Json)) (key : String) : Option Json :=
  (members.reverse.find? (fun m => m.1 == key)).map Prod.snd

/-- Validation of one `evidence` entry against the `Evidence` model. -/
def validateEvidence : Json → Option Evidence
  | .obj ms =>
    match objLookup ms ("pmid"), objLookup ms ("excerpt") with
    | some (.str p), some (.str e) => some ⟨p, e⟩
    | _, _ => none
  | _ => none

/-- Validation of the `evidence` list elementwise. -/
def validateEvidenceList : List Json → Option (List Evidence)
  | [] => some []
  | j :: rest =>
    match validateEvidence j, validateEvidenceList rest with
    | some e, some es => some (e :: es)
    | _, _ => none

/-- Embeds `MedicalAnswer(**parsed)`: the parsed JSON must be an object carrying a
string `question`, a string `answer_summary`, a list of valid `evidence`
entries and a numeric `confidence`; extra keys are ignored, and the
confidence value is taken as-is (the model declares no range constraint). -/
def validateMedicalAnswer : Json → Except SchemaErr MedicalAnswer
  | .obj ms =>
    match objLookup ms ("question") with
    | some (.str q) =>
      match objLookup ms ("answer_summary") with
      | some (.str a) =>
        match objLookup ms ("evidence") with
        | some (.arr es) =>
          match validateEvidenceList es with
          | some evs =>
            match objLookup ms ("confidence") with
            | some (.num n) => .ok ⟨q, a, evs, n.toRat⟩
            | _ => .error (.badField ("confidence"))
          | none => .error (.badField ("evidence"))
        | _ => .error (.badField ("evidence"))
      | _ => .error (.badField ("answer_summary"))
    | _ => .error (.badField ("question"))
  | _ => .error .notAnObject

/-- The backtick character (0x60). -/
def tickChar : Char := '\x60'

/-- Three backticks, the fence marker tested by `"```" in raw_output`. -/
def tick3 : List Char := [tickChar, tickChar, tickChar]

/-- Lazy part of the fenced-block regex
`` ```(?:json)?\s*(\{.*?\})\s*``` `` (with `re.DOTALL`): after the group's
opening brace, consume as little as possible until a `\}` whose remainder
starts, after whitespace, with the closing fence.  Returns the group body
after the opening brace (including the closing brace). -/
def fencedTail (acc : List Char) : List Char → Option (List Char)
  | [] => none
  | c :: rest =>
    if c = '}' ∧ tick3.isPrefixOf (rest.dropWhile pyIsSpace) then
      some (acc.reverse ++ ['}'])
    else fencedTail (c :: acc) rest

/-- Continuation of the fenced-block regex after the opening ```` ``` ````:
the optional literal `json` (tried first, with backtracking), `\s*`, then
the brace-delimited lazy group. -/
def fencedAfterTicks (s : List Char) : Option (List Char) :=
  let attempt : List Char → Option (List Char) := fun t =>
    match t.dropWhile pyIsSpace with
    | c :: rest => if c = '{' then (fencedTail [] rest).map (fun b => '{' :: b) else none
    | [] => none
  match s with
  | 'j' :: 's' :: 'o' :: 'n' :: rest => (attempt rest).orElse (fun _ => attempt s)
  | _ => attempt s

/-- Model of `re.search` for the fenced-block pattern: try each start position left
to right; a match must begin with three backticks. -/
def reSearchFenced : List Char → Option (List Char)
  | [] => none
  | c :: rest =>
    if c = tickChar ∧ [tickChar, tickChar].isPrefixOf rest then
      match fencedAfterTicks (rest.drop 2) with
      | some g => some g
      | none => reSearchFenced rest
    else reSearchFenced rest

/-- Greedy brace search `re.search` with pattern `\x7b.*\x7d` and `re.DOTALL`: the match runs
from the first `\x7b` to the last `\x7d` after it, if any. -/
def extractBraces (l : List Char) : Option (List Char) :=
  match l.dropWhile (fun c => !(c = '{')) with
  | [] => none
  | c :: rest =>
    let r := (c :: rest).reverse.dropWhile (fun x => !(x = '}'))
    if r.isEmpty then none else some r.reverse

/-- Count of unescaped quotes in one line, exactly as the repair heuristic
does: a quote counts unless the previous character is a backslash. -/
def cuq (prev : Option Char) : List Char → ℕ
  | [] => 0
  | c :: rest =>
    (if c = '"' ∧ prev ≠ some '\\' then 1 else 0) + cuq (some c) rest

/-- Loop of `escape_newlines_in_json_strings` (`src/llm.py` lines 218–256):
`acc` holds the emitted lines in reverse; a line with an odd number of
unescaped quotes toggles the open-string state; lines falling inside an
open string are merged into the previous emitted line joined by a space
after stripping. -/
def escapeLoop (acc : List (List Char)) (in_string : Bool) :
    List (List Char) → List (List Char)
  | [] => acc.reverse
  | line :: rest =>
    let odd := cuq none line % 2 = 1
    if odd then
      if in_string then
        match acc with
        | last :: accRest => escapeLoop ((last ++ ' ' :: pyStrip line) :: accRest) false rest
        | [] => escapeLoop [line] false rest
      else escapeLoop (line :: acc) true rest
    else
      if in_string then
        match acc with
        | last :: accRest => escapeLoop ((last ++ ' ' :: pyStrip line) :: accRest) in_string rest
        | [] => escapeLoop [line] in_string rest
      else escapeLoop (line :: acc) in_string rest

/-- Embeds `escape_newlines_in_json_strings(text)`: split on newlines, run the
merge loop, join with newlines. -/
def escape_newlines_in_json_strings (text : List Char) : List Char :=
  List.intercalate ['\n'] (escapeLoop [] false (text.splitOn '\n'))

/-- Which recovery strategy of the parse chain produced the answer. -/
inductive Strategy where
  | direct
  | fenced
  | braces
  | repaired
deriving DecidableEq, Repr

/-- Failure of the parse chain: the final
`ValueError("LLM returned invalid JSON ...")`, or a schema failure
(`TypeError`/pydantic `ValidationError`) propagating out of a successful
parse. -/
inductive ChainErr where
  | invalidJson
  | schema (e : SchemaErr)
deriving DecidableEq, Repr

/-- Shared tail of the successful-parse paths: `MedicalAnswer(**parsed)`,
whose validation failure propagates. -/
def mdAnswer (strat : Strategy) (parsed : Json) :
    Except ChainErr (MedicalAnswer × Strategy) :=
  match validateMedicalAnswer parsed with
  | .ok a => .ok (a, strat)
  | .error e => .error (.schema e)

/-- Last-resort repair (`src/llm.py` lines 212–262): escape newlines inside
string values and reparse.  Any failure inside this block — including a
schema failure of `MedicalAnswer(**parsed)` — is caught by
`except Exception` and becomes the final `ValueError`. -/
def stageRepair (raw : List Char) : Except ChainErr (MedicalAnswer × Strategy) :=
  match jsonParseL (escape_newlines_in_json_strings raw) with
  | some parsed =>
    match validateMedicalAnswer parsed with
    | .ok a => .ok (a, .repaired)
    | .error _ => .error .invalidJson
  | none => .error .invalidJson

/-- Brace-extraction strategy (`src/llm.py` lines 194–204): greedy
outermost-brace substring, reparse, fall through on failure. -/
def stageBraces (raw : List Char) : Except ChainErr (MedicalAnswer × Strategy) :=
  match extractBraces raw with
  | some p =>
    match jsonParseL p with
    | some parsed => mdAnswer .braces parsed
    | none => stageRepair raw
  | none => stageRepair raw

/-- The ordered parse-recovery chain of `generate_answer` (`src/llm.py`
lines 174–283): direct parse; if a fence marker occurs, the fenced-block
regex (note that on a regex match `raw_output` is reassigned to the
captured group before the retry, so later strategies see the group); the
greedy brace substring; the newline-escaping repair; otherwise the final
`ValueError`. -/
def parseChain (raw_output : List Char) : Except ChainErr (MedicalAnswer × Strategy) :=
  match jsonParseL raw_output with
  | some parsed => mdAnswer .direct parsed
  | none =>
    if pyIn tick3 raw_output then
      match reSearchFenced raw_output with
      | some g =>
        match jsonParseL g with
        | some parsed => mdAnswer .fenced parsed
        | none => stageBraces g
      | none => stageBraces raw_output
    else stageBraces raw_output

/-- The fixed answer summary returned when no chunks were retrieved
(`src/llm.py` line 97). -/
def insufficientMsg : String :=
  "Insufficient evidence available in the retrieved literature."

/-- Context block of `generate_answer` (`src/llm.py` lines 119–124): each
chunk sanitized and prefixed with its pmid, blocks joined by blank lines. -/
def buildContext (retrieved_chunks : List Chunk) : String :=
  String.intercalate ("\n\n")
    (retrieved_chunks.map (fun c => "PMID: " ++ c.pmid ++ "\n" ++ sanitize_text c.text))

/-- The generation prompt of `generate_answer` (`src/llm.py` lines
131–169), with the context block and question interpolated. -/
def buildPrompt (context question : String) : String :=
  "You are a medical research assistant. Your task is to answer the question using ONLY information from the provided context.\n\n" ++
  "**CRITICAL RULES:**\n" ++
  "1. Use ONLY the provided context - do not use external knowledge\n" ++
  "2. Every claim in your answer must be directly supported by the context\n" ++
  "3. Do not invent, infer, or extrapolate beyond what is explicitly stated\n" ++
  "4. If the context doesn\x27t contain enough information, say so clearly\n" ++
  "5. Quote specific excerpts from the context as evidence\n" ++
  "6. Set confidence based on the strength and amount of evidence in the context\n\n" ++
  "**Output Format:**\n" ++
  "Return your answer STRICTLY in valid JSON format with this schema:\n" ++
  "\x7b\n" ++
  "  \"question\": \"the original question\",\n" ++
  "  \"answer_summary\": \"your answer based ONLY on the context\",\n" ++
  "  \"evidence\": [\n" ++
  "    \x7b\"pmid\": \"PMID from context\", \"excerpt\": \"direct quote from context supporting your answer\"\x7d\n" ++
  "  ],\n" ++
  "  \"confidence\": 0.0-1.0\n" ++
  "\x7d\n\n" ++
  "**IMPORTANT JSON RULES:**\n" ++
  "- Return ONLY valid JSON (no markdown, no code blocks, no extra text)\n" ++
  "- Use \\n for newlines in strings (not literal newlines)\n" ++
  "- Escape all special characters properly\n" ++
  "- Do not include any text before or after the JSON object\n\n" ++
  "**Confidence Guidelines:**\n" ++
  "- 0.8-1.0: Strong, consistent evidence from multiple sources\n" ++
  "- 0.5-0.7: Moderate evidence, some supporting information\n" ++
  "- 0.0-0.4: Weak or insufficient evidence\n\n" ++
  "**Context (ONLY SOURCE OF TRUTH):**\n" ++ context ++ "\n\n" ++
  "**Question:**\n" ++ question ++ "\n\n" ++
  "**Remember:** Every single claim in answer_summary must be supported by the context above. If you\x27re unsure, lower your confidence or state the limitation."

/-- Failures `generate_answer` propagates to its caller: a backend
exception from `llm.generate`, or an exhausted/failed parse chain. -/
inductive GenAnswerError where
  | generation (e : GenError)
  | parse (e : ChainErr)
deriving DecidableEq, Repr

/-- Result of `generate_answer` together with whether the generation
backend (`llm.generate`) was invoked on the way. -/
structure GenOutcome where
  answer : MedicalAnswer
  backendInvoked : Bool
deriving DecidableEq, Repr

/-- Embeds `generate_answer(question, retrieved_chunks)` (`src/llm.py` lines
76–289).  The construction of `LLMClient` (environment validation) is
abstracted into the supplied client.  With no retrieved chunks the fixed
insufficient-evidence answer is returned without calling `llm.generate`;
otherwise the sanitized context is built, the prompt sent to the backend
with temperature `0` and `json_mode=True`, and the response pushed through
the parse chain. -/
def generate_answer (question : String) (retrieved_chunks : List Chunk)
    (llm : GenClient) : Except GenAnswerError GenOutcome :=
  if retrieved_chunks.isEmpty then
    .ok { answer := { question := question, answer_summary := insufficientMsg,
                      evidence := [], confidence := 0 },
          backendInvoked := false }
  else
    let context := buildContext retrieved_chunks
    let prompt := buildPrompt context question
    match llm prompt 0 true with
    | .error e => .error (.generation e)
    | .ok raw_output =>
      match parseChain raw_output.toList with
      | .ok p => .ok { answer := p.1, backendInvoked := true }
      | .error e => .error (.parse e)

/-- A generation response wrapping a JSON body in fenced code-block
markers with the `json` language tag, the shape the fenced strategy
of the parse chain is designed for. -/
def fenceWrap (body : List Char) : List Char :=
  ("\x60\x60\x60json\n").toList ++ body ++ ("\n\x60\x60\x60").toList

/-- Helper: deduplicating a list does not change the finite set it spans. -/
theorem toFinset_dedup_eq {α : Type} [DecidableEq α] (l : List α) :
    l.dedup.toFinset = l.toFinset := by
  ext a
  simp [List.mem_toFinset, List.mem_dedup]

/-- C3: with an empty retrieved-chunk sequence, `generate_answer` returns
the fixed insufficient-evidence answer — summary `insufficientMsg`, no
evidence, confidence `0.0` — and the generation backend is not invoked:
the outcome is the same for every client and records `backendInvoked =
false`. -/
theorem c3_empty_chunks_short_circuit (question : String) (llm : GenClient) :
    generate_answer question [] llm =
      .ok { answer := { question := question, answer_summary := insufficientMsg,
                        evidence := [], confidence := 0 },
            backendInvoked := false } := rfl

/-- C7 (code bug): searching an index with no entries raises rather than
returning an empty sequence — faiss pads all `k` slots with index `-1`,
and `self.texts[-1]` on the empty list raises `IndexError`. -/
theorem c7_empty_index_search_raises :
    (VectorStore.init 3).search [0, 0, 0] 5 none = .error .indexError := rfl

/-- C9 (code bug): `build_index` of `src/pipeline.py` never returns an
index: either the corpus embeds to nothing (`embeddings[0]` raises
`IndexError`) or `store.add(embeddings, all_chunks)` raises `TypeError`
because `VectorStore.add` requires three arguments. -/
theorem c9_build_index_always_fails (query : String)
    (fetch_pubmed : String → List Chunk) (chunk_text : String → List String)
    (embed : List String → List (List ℚ)) :
    (build_index query fetch_pubmed chunk_text embed).isOk = false := by
  cases h : embed ((fetch_pubmed query).foldl (fun acc doc => acc ++ chunk_text doc.text) []) with
  | nil => simp [build_index, h, Except.isOk, Except.toBool]
  | cons e0 rest => simp [build_index, h, Except.isOk, Except.toBool]

/-- C6 counterexample: a `MedicalAnswer` whose confidence is `2.0` — outside
the closed unit interval — validates successfully, and the value is kept
as-is; the claimed validation error does not occur. -/
theorem c6_counterexample :
    validateMedicalAnswer
        (Json.obj [("question", .str ("q")), ("answer_summary", .str ("s")),
                   ("evidence", .arr []), ("confidence", .num ⟨2, 0⟩)]) =
      .ok { question := "q", answer_summary := "s", evidence := [],
            confidence := JNum.toRat ⟨2, 0⟩ } ∧
    (1 : ℚ) < JNum.toRat ⟨2, 0⟩ := by
  constructor
  · rfl
  · norm_num [JNum.toRat]

/-- C6 (amended): validating a `MedicalAnswer` checks field presence and
types only; any numeric confidence — whatever its value — is accepted and
stored unchanged (neither rejected nor clamped), so validated answers need
not satisfy `0 ≤ confidence ≤ 1`. -/
theorem c6_validation_no_range_check (q a : String) (m e : ℤ) :
    validateMedicalAnswer
        (Json.obj [("question", .str q), ("answer_summary", .str a),
                   ("evidence", .arr []), ("confidence", .num ⟨m, e⟩)]) =
      .ok { question := q, answer_summary := a, evidence := [],
            confidence := JNum.toRat ⟨m, e⟩ } := rfl

/-- C2 counterexample: `add` with one embedding of the right width but two
chunks succeeds — the claimed failure on
`len(embeddings) != len(chunks)` does not happen (and the store is left
with parallel lists of unequal length). -/
theorem c2_counterexample :
    ((VectorStore.init 1).add [[0]] ["a", "b"] [⟨"1"⟩, ⟨"2"⟩]).1 = none ∧
    ([[(0 : ℚ)]].length ≠ (["a", "b"] : List String).length) := by
  exact ⟨rfl, by decide⟩

/-- C2 (amended): on a non-empty batch, `add` fails exactly when some
width of some embedding differs from `dim`, and on failure the store is
completely unchanged (the faiss `add` raises before `texts`/`metadata` are
extended); on success all three lists are appended.  A mismatch between
the number of embeddings and the number of chunks is not detected. -/
theorem c2_add_characterization (s : VectorStore) (embeddings : List (List ℚ))
    (texts : List String) (metadata : List Meta) (h : embeddings ≠ []) :
    ((s.add embeddings texts metadata).1.isSome ↔ ∃ e ∈ embeddings, e.length ≠ s.dim) ∧
    ((s.add embeddings texts metadata).1.isSome → (s.add embeddings texts metadata).2 = s) ∧
    ((s.add embeddings texts metadata).1 = none →
      (s.add embeddings texts metadata).2 =
        { s with vecs := s.vecs ++ embeddings, texts := s.texts ++ texts,
                 metadata := s.metadata ++ metadata }) := by
  have hie : embeddings.isEmpty = false := by
    cases embeddings with
    | nil => exact absurd rfl h
    | cons a l => rfl
  by_cases hex : ∃ e ∈ embeddings, e.length ≠ s.dim
  · refine ⟨?_, ?_, ?_⟩ <;> simp [VectorStore.add, hie, hex]
  · refine ⟨?_, ?_, ?_⟩ <;> simp [VectorStore.add, hie, hex]

/-- C2 witness: the amended characterization applied to a concrete store
and batch (one embedding of width 2 against `dim = 1`). -/
theorem c2_add_characterization_witness :
    ([[(0 : ℚ), 1]] ≠ ([] : List (List ℚ))) ∧
    (((VectorStore.init 1).add [[(0 : ℚ), 1]] ["a"] [⟨"1"⟩]).1.isSome ↔
      ∃ e ∈ [[(0 : ℚ), 1]], e.length ≠ (VectorStore.init 1).dim) := by
  refine ⟨by decide, ?_⟩
  exact (c2_add_characterization (VectorStore.init 1) [[(0 : ℚ), 1]] ["a"] [⟨"1"⟩]
    (by decide)).1

/-- C4 counterexample: a classifier response containing both tokens —
`"YES OR NO"` — contains `"YES"`, yet `check_faithfulness` returns `true`
(the `"NO"` branch is tested first), falsifying "returns false when it
contains YES". -/
theorem c4_counterexample :
    check_faithfulness (fun _ _ _ => .ok ("YES OR NO")) "a" "c" = true ∧
    pyIn ("YES".toList) (pyUpper (pyStrip ("YES OR NO".toList))) = true := by
  exact ⟨rfl, rfl⟩

/-- C4 (amended): `check_faithfulness` returns `true` precisely when the
backend call succeeds and its stripped, upper-cased response contains
`"NO"` as a substring; in every other case — a response containing
`"YES"` without `"NO"`, any other response, or a backend failure — it
returns `false`. -/
theorem c4_faithfulness_characterization (llm : GenClient) (answer context : String) :
    check_faithfulness llm answer context = true ↔
      ∃ s, llm (faithfulnessPrompt answer context) 0 false = .ok s ∧
        pyIn ("NO".toList) (pyUpper (pyStrip s.toList)) = true := by
  unfold check_faithfulness
  cases h : llm (faithfulnessPrompt answer context) 0 false with
  | error e => simp
  | ok r =>
    by_cases hno : pyIn ("NO".toList) (pyUpper (pyStrip r.toList)) = true
    · simp [hno]
    · by_cases hyes : pyIn ("YES".toList) (pyUpper (pyStrip r.toList)) = true
      · simp [hno, hyes]
      · simp [hno, hyes]

/-- C5 counterexample: with the duplicated ground-truth list
`["2", "2"]`, the code divides the one distinct hit by the list length
`2` and returns `0.5`, while the set semantics the claim states gives
`1.0`. -/
theorem c5_counterexample :
    retrieval_recall ["2"] ["2", "2"] = 1 / 2 ∧
    spec_retrieval_recall ["2"] ["2", "2"] = 1 := by
  constructor
  · have h : ((["2"].dedup.filter
        (fun p => (["2", "2"] : List String).contains p)).length : ℚ) = 1 := by
      norm_num [show (["2"].dedup.filter
        (fun p => (["2", "2"] : List String).contains p)).length = 1 from by decide]
    unfold retrieval_recall
    rw [if_neg (by decide)]
    rw [h]
    norm_num
  · have h1 : ((["2"] : List String).toFinset ∩ (["2", "2"] : List String).toFinset).card = 1 := by
      decide
    have h2 : ((["2", "2"] : List String).toFinset).card = 1 := by decide
    unfold spec_retrieval_recall
    rw [if_neg (by decide)]
    rw [h1, h2]
    norm_num

/-- C5 (amended): `retrieval_recall` returns the sentinel `-1.0` when the
ground-truth list is empty; otherwise it returns the size of the set
intersection of retrieved and ground-truth pmids divided by the *length of
the ground-truth list* (retrieved duplicates count once, but duplicated
ground-truth pmids inflate the denominator), a value always within
`[0, 1]`. -/
theorem c5_recall_characterization (retrieved ground_truth : List String) :
    retrieval_recall retrieved [] = -1 ∧
    (ground_truth ≠ [] →
      retrieval_recall retrieved ground_truth =
        ((retrieved.toFinset ∩ ground_truth.toFinset).card : ℚ) / (ground_truth.length : ℚ) ∧
      0 ≤ retrieval_recall retrieved ground_truth ∧
      retrieval_recall retrieved ground_truth ≤ 1) := by
  constructor
  · rfl
  · intro hne
    have hkey : (retrieved.dedup.filter (fun p => ground_truth.contains p)).length
        = (retrieved.toFinset ∩ ground_truth.toFinset).card := by
      have hnd : (retrieved.dedup.filter (fun p => ground_truth.contains p)).Nodup :=
        (List.nodup_dedup retrieved).filter _
      rw [← List.Nodup.dedup hnd, ← List.card_toFinset]
      congr 1
      rw [List.toFinset_filter, toFinset_dedup_eq]
      have hcongr : Finset.filter (fun x => ground_truth.contains x = true) retrieved.toFinset =
          Finset.filter (fun x => x ∈ ground_truth.toFinset) retrieved.toFinset :=
        Finset.filter_congr
          (fun x _ => by simp [List.contains, List.elem_iff, List.mem_toFinset])
      rw [hcongr]
      exact Finset.filter_mem_eq_inter
    have hlen : (0 : ℚ) < (ground_truth.length : ℚ) := by
      have h0 : 0 < ground_truth.length := List.length_pos.mpr hne
      exact_mod_cast h0
    have hval : retrieval_recall retrieved ground_truth =
        ((retrieved.toFinset ∩ ground_truth.toFinset).card : ℚ) / (ground_truth.length : ℚ) := by
      unfold retrieval_recall
      rw [if_neg (by simp [List.isEmpty_iff, hne])]
      rw [hkey]
    refine ⟨hval, ?_, ?_⟩
    · rw [hval]
      exact div_nonneg (by positivity) hlen.le
    · rw [hval, div_le_one hlen]
      have hle : (retrieved.toFinset ∩ ground_truth.toFinset).card ≤ ground_truth.length := by
        calc (retrieved.toFinset ∩ ground_truth.toFinset).card
            ≤ ground_truth.toFinset.card := Finset.card_le_card Finset.inter_subset_right
          _ = ground_truth.dedup.length := List.card_toFinset _
          _ ≤ ground_truth.length := (List.dedup_sublist _).length_le
      exact_mod_cast hle

/-- C5 witness: the amended characterization applied at the concrete
example of the spec, `retrieval_recall(["1","2","3"], ["2","3"])`. -/
theorem c5_recall_characterization_witness :
    ((["2", "3"] : List String) ≠ []) ∧
    retrieval_recall ["1", "2", "3"] ["2", "3"] =
      (((["1", "2", "3"] : List String).toFinset ∩ (["2", "3"] : List String).toFinset).card : ℚ) /
        ((["2", "3"] : List String).length : ℚ) :=
  ⟨by decide, ((c5_recall_characterization ["1", "2", "3"] ["2", "3"]).2 (by decide)).1⟩

/-- C1 counterexample: a store holding a single entry, searched with
`k = 2` and no threshold, returns *two* results — faiss pads the missing
slot with index `-1` and distance `FLT_MAX`, and the negative
indexing of Python turns that into a duplicate of the last stored chunk — while the
spec-described result is the single stored entry.  The claim fails as
stated. -/
theorem c1_counterexample :
    VectorStore.search ⟨1, [[0]], ["a"], [⟨"1"⟩]⟩ [0] 2 none =
      .ok [⟨"a", "1", sqL2 [0] [0]⟩, ⟨"a", "1", FLT_MAX⟩] ∧
    spec_search ⟨1, [[0]], ["a"], [⟨"1"⟩]⟩ [0] 2 none = [⟨"a", "1", sqL2 [0] [0]⟩] ∧
    VectorStore.search ⟨1, [[0]], ["a"], [⟨"1"⟩]⟩ [0] 2 none ≠
      .ok (spec_search ⟨1, [[0]], ["a"], [⟨"1"⟩]⟩ [0] 2 none) := by
  refine ⟨rfl, rfl, ?_⟩
  intro hcontra
  rw [show spec_search ⟨1, [[0]], ["a"], [⟨"1"⟩]⟩ [0] 2 none =
    [⟨"a", "1", sqL2 [0] [0]⟩] from rfl] at hcontra
  have := Except.ok.inj hcontra
  simp at this

/-- Helper for C1: when every ranked index is a valid position of both
parallel lists, the search loop raises nothing and produces exactly the
threshold-filtered records in ranked order. -/
theorem searchLoop_eq_filterMap (s : VectorStore)
    (th : Option ℚ) (pairs : List (ℚ × ℤ))
    (h : ∀ p ∈ pairs, 0 ≤ p.2 ∧ p.2.toNat < s.texts.length ∧ p.2.toNat < s.metadata.length) :
    searchLoop s.texts s.metadata th pairs =
      .ok ((pairs.filter (fun p => !threshSkip th p.1)).filterMap (specEntry s)) := by
  induction pairs with
  | nil => rfl
  | cons hd tl ih =>
    obtain ⟨h0, h1, h2⟩ := h hd (by simp)
    have htl := fun p hp => h p (List.mem_cons_of_mem hd hp)
    obtain ⟨d, idx⟩ := hd
    have ht : pyIndex s.texts idx = s.texts.get? idx.toNat := by
      unfold pyIndex; rw [if_pos h0]
    have hm : pyIndex s.metadata idx = s.metadata.get? idx.toNat := by
      unfold pyIndex; rw [if_pos h0]
    obtain ⟨tx, htx⟩ : ∃ tx, s.texts.get? idx.toNat = some tx :=
      ⟨_, List.get?_eq_get h1⟩
    obtain ⟨mm, hmm⟩ : ∃ mm, s.metadata.get? idx.toNat = some mm :=
      ⟨_, List.get?_eq_get h2⟩
    have htx2 : s.texts[idx.toNat]? = some tx := by
      rw [← List.get?_eq_getElem?]; exact htx
    have hmm2 : s.metadata[idx.toNat]? = some mm := by
      rw [← List.get?_eq_getElem?]; exact hmm
    cases hsk : threshSkip th d with
    | true =>
      simp only [searchLoop, hsk, if_true, List.filter_cons]
      rw [if_neg (by simp [hsk])]
      exact ih htl
    | false =>
      simp only [searchLoop, hsk, Bool.false_eq_true, if_false]
      rw [ht, hm, htx, hmm, ih htl]
      simp only [List.filter_cons]
      rw [if_pos (by simp [hsk])]
      rw [List.filterMap_cons]
      simp [specEntry, htx2, hmm2]

/-- Helper: a record produced by `specEntry` carries the distance of its
ranked pair as score. -/
theorem specEntry_score {s : VectorStore} {p : ℚ × ℤ} {r : RetrievalResult}
    (h : specEntry s p = some r) : r.score = p.1 := by
  unfold specEntry at h
  cases ht : s.texts.get? p.2.toNat with
  | none => rw [ht] at h; cases h
  | some tx =>
    cases hm : s.metadata.get? p.2.toNat with
    | none => rw [ht, hm] at h; cases h
    | some m =>
      rw [ht, hm] at h
      cases h
      rfl

/-- Helper: the ranking order implies non-decreasing distance. -/
theorem rrLe_fst {a b : ℚ × ℤ} (h : rrLe a b) : a.1 ≤ b.1 := by
  rcases h with h | ⟨h, _⟩
  · exact le_of_lt h
  · exact le_of_eq h

/-- C1 (amended): for a well-formed store holding at least `k` entries and
a query of the right dimension, `search` returns exactly the spec-described
result — the `k` stored entries of smallest distance, ascending, ties by
insertion order, threshold-filtered — with at most `k` results,
non-decreasing scores, and no result above a supplied threshold.  (For
`k` larger than the number of stored entries the claim fails; see the
counterexample.) -/
theorem c1_search_topk (s : VectorStore) (q : List ℚ) (k : ℕ) (th : Option ℚ)
    (hwf : s.WF) (hq : q.length = s.dim) (hk : k ≤ s.vecs.length) :
    s.search q k th = .ok (spec_search s q k th) ∧
    (spec_search s q k th).length ≤ k ∧
    (spec_search s q k th).Pairwise (fun a b => a.score ≤ b.score) ∧
    (∀ r ∈ spec_search s q k th, ∀ t, th = some t → r.score ≤ t) := by
  obtain ⟨hlt, hlm, _hdim⟩ := hwf
  have hslen : (s.vecs.enum.map (fun p => (sqL2 q p.2, (p.1 : ℤ)))).length = s.vecs.length := by
    rw [List.length_map, List.enum_length]
  have hsortlen :
      (List.insertionSort rrLe (s.vecs.enum.map (fun p => (sqL2 q p.2, (p.1 : ℤ))))).length
        = s.vecs.length := by
    rw [List.length_insertionSort, hslen]
  have htake :
      ((List.insertionSort rrLe (s.vecs.enum.map (fun p => (sqL2 q p.2, (p.1 : ℤ))))).take k).length
        = k := by
    rw [List.length_take, hsortlen]
    exact min_eq_left hk
  have hfaiss : faissTopK s.vecs q k =
      (List.insertionSort rrLe (s.vecs.enum.map (fun p => (sqL2 q p.2, (p.1 : ℤ))))).take k := by
    unfold faissTopK
    simp only [htake, Nat.sub_self, List.replicate_zero, List.append_nil]
  have hmem : ∀ p ∈ (List.insertionSort rrLe
      (s.vecs.enum.map (fun p => (sqL2 q p.2, (p.1 : ℤ))))).take k,
      0 ≤ p.2 ∧ p.2.toNat < s.texts.length ∧ p.2.toNat < s.metadata.length := by
    intro p hp
    have hp1 : p ∈ List.insertionSort rrLe (s.vecs.enum.map (fun p => (sqL2 q p.2, (p.1 : ℤ)))) :=
      (List.take_sublist k _).subset hp
    have hp2 : p ∈ s.vecs.enum.map (fun p => (sqL2 q p.2, (p.1 : ℤ))) :=
      (List.perm_insertionSort rrLe _).mem_iff.mp hp1
    obtain ⟨⟨i, v⟩, hiv, hfv⟩ := List.mem_map.mp hp2
    obtain ⟨hilt, _⟩ := List.mem_enum hiv
    subst hfv
    refine ⟨Int.ofNat_nonneg i, ?_, ?_⟩
    · rw [Int.toNat_ofNat, hlt]; exact hilt
    · rw [Int.toNat_ofNat, hlm]; exact hilt
  have hloop := searchLoop_eq_filterMap s th _ hmem
  have specEq : spec_search s q k th =
      (((List.insertionSort rrLe (s.vecs.enum.map (fun p => (sqL2 q p.2, (p.1 : ℤ))))).take k).filter
        (fun p => !threshSkip th p.1)).filterMap (specEntry s) := rfl
  have hmain : s.search q k th = .ok (spec_search s q k th) := by
    unfold VectorStore.search
    rw [if_neg (by rw [hq]; exact fun hcon => hcon rfl)]
    rw [hfaiss, hloop, specEq]
  refine ⟨hmain, ?_, ?_, ?_⟩
  · rw [specEq]
    calc ((((List.insertionSort rrLe (s.vecs.enum.map (fun p => (sqL2 q p.2, (p.1 : ℤ))))).take k).filter
            (fun p => !threshSkip th p.1)).filterMap (specEntry s)).length
        ≤ (((List.insertionSort rrLe (s.vecs.enum.map (fun p => (sqL2 q p.2, (p.1 : ℤ))))).take k).filter
            (fun p => !threshSkip th p.1)).length := List.length_filterMap_le _ _
      _ ≤ ((List.insertionSort rrLe (s.vecs.enum.map (fun p => (sqL2 q p.2, (p.1 : ℤ))))).take k).length :=
          List.length_filter_le _ _
      _ = k := htake
  · have hsorted_p : List.Sorted rrLe
        (List.insertionSort rrLe (s.vecs.enum.map (fun p => (sqL2 q p.2, (p.1 : ℤ))))) :=
      List.sorted_insertionSort rrLe _
    have h1 : List.Pairwise rrLe
        ((List.insertionSort rrLe (s.vecs.enum.map (fun p => (sqL2 q p.2, (p.1 : ℤ))))).take k) :=
      List.Pairwise.sublist (List.take_sublist k _) hsorted_p
    have h2 := h1.filter (fun p => !threshSkip th p.1)
    rw [specEq]
    refine List.pairwise_filterMap.mpr (h2.imp ?_)
    intro a b hab x hx y hy
    rw [specEntry_score hx, specEntry_score hy]
    exact rrLe_fst hab
  · intro r hr t hth
    rw [specEq] at hr
    obtain ⟨p, hpmem, hpe⟩ := List.mem_filterMap.mp hr
    have hpf := (List.mem_filter.mp hpmem).2
    have hskipf : threshSkip th p.1 = false := by simpa using hpf
    rw [hth] at hskipf
    unfold threshSkip at hskipf
    have : ¬ p.1 > t := by simpa using hskipf
    rw [specEntry_score hpe]
    exact le_of_not_lt this

/-- C1 witness: the amended theorem applied to a concrete two-entry store
with `k = 2`. -/
theorem c1_search_topk_witness :
    (VectorStore.WF ⟨1, [[0], [3]], ["a", "b"], [⟨"1"⟩, ⟨"2"⟩]⟩ ∧
      ([(0 : ℚ)].length = (1 : ℕ)) ∧ (2 : ℕ) ≤ ([[(0 : ℚ)], [3]] : List (List ℚ)).length) ∧
    VectorStore.search ⟨1, [[0], [3]], ["a", "b"], [⟨"1"⟩, ⟨"2"⟩]⟩ [0] 2 none =
      .ok (spec_search ⟨1, [[0], [3]], ["a", "b"], [⟨"1"⟩, ⟨"2"⟩]⟩ [0] 2 none) := by
  refine ⟨⟨?_, ?_, ?_⟩, ?_⟩
  · exact ⟨rfl, rfl, by decide⟩
  · rfl
  · decide
  · exact (c1_search_topk ⟨1, [[0], [3]], ["a", "b"], [⟨"1"⟩, ⟨"2"⟩]⟩ [0] 2 none
      ⟨rfl, rfl, by decide⟩ rfl (by decide)).1

/-- Helper: tab replacement leaves no tab characters. -/
theorem replaceTab_no_tab (l : List Char) : '\t' ∉ replaceTab l := by
  intro hmem
  rcases List.mem_map.mp hmem with ⟨a, _, hfa⟩
  by_cases h : a = '\t' <;> simp [h] at hfa

/-- Helper: tab replacement is the identity on tab-free input. -/
theorem replaceTab_eq_self {l : List Char} (h : '\t' ∉ l) : replaceTab l = l := by
  induction l with
  | nil => rfl
  | cons c rest ih =>
    have hc : c ≠ '\t' := fun hc => h (hc ▸ List.mem_cons_self c rest)
    have hr : '\t' ∉ rest := fun hr => h (List.mem_cons_of_mem c hr)
    simp only [replaceTab, List.map_cons, if_neg hc]
    exact congrArg (c :: ·) (ih hr)

/-- Helper: control-character removal leaves none of them. -/
theorem removeCtrl_no_ctrl (l : List Char) : ∀ c ∈ removeCtrl l, isCtrlRemoved c = false := by
  intro c hc
  have := (List.mem_filter.mp hc).2
  simpa using this

/-- Helper: control-character removal is the identity on clean input. -/
theorem removeCtrl_eq_self {l : List Char} (h : ∀ c ∈ l, isCtrlRemoved c = false) :
    removeCtrl l = l :=
  List.filter_eq_self.mpr (fun c hc => by simp [h c hc])

/-- Helper: space collapsing yields a sublist. -/
theorem collapseSpaces_sublist (l : List Char) : (collapseSpaces l).Sublist l := by
  induction l with
  | nil => exact List.Sublist.refl []
  | cons c rest ih =>
    by_cases h : c = ' ' ∧ rest.head? = some ' '
    · simp only [collapseSpaces, if_pos h]
      exact ih.cons c
    · simp only [collapseSpaces, if_neg h]
      exact ih.cons₂ c

/-- Helper: newline collapsing yields a sublist. -/
theorem collapseNewlines_sublist (l : List Char) : (collapseNewlines l).Sublist l := by
  induction l with
  | nil => exact List.Sublist.refl []
  | cons c rest ih =>
    by_cases h : c = '\n' ∧ rest.head? = some '\n' ∧ rest.tail.head? = some '\n'
    · simp only [collapseNewlines, if_pos h]
      exact ih.cons c
    · simp only [collapseNewlines, if_neg h]
      exact ih.cons₂ c

/-- Helper: stripping yields a contiguous infix. -/
theorem pyStrip_contiguous (l : List Char) : pyStrip l <:+: l := by
  unfold pyStrip
  have h1 : (l.dropWhile pyIsSpace) <:+ l := List.dropWhile_suffix pyIsSpace
  have h2 : ((l.dropWhile pyIsSpace).reverse.dropWhile pyIsSpace) <:+
      (l.dropWhile pyIsSpace).reverse := List.dropWhile_suffix pyIsSpace
  have h3 : ((l.dropWhile pyIsSpace).reverse.dropWhile pyIsSpace).reverse <+:
      (l.dropWhile pyIsSpace) := by
    have := List.reverse_prefix.mpr h2
    rwa [List.reverse_reverse] at this
  exact h3.isInfix.trans h1.isInfix

/-- Helper: a singleton prefix pins the head. -/
theorem head?_of_prefix_one {α : Type} {a : α} {l : List α} (h : [a] <+: l) :
    l.head? = some a := by
  obtain ⟨t, rfl⟩ := h
  rfl

/-- Helper: a two-element prefix pins the first two positions. -/
theorem head2_of_prefix_two {α : Type} {a b : α} {l : List α} (h : [a, b] <+: l) :
    l.head? = some a ∧ l.tail.head? = some b := by
  obtain ⟨t, rfl⟩ := h
  exact ⟨rfl, rfl⟩

/-- Helper: space collapsing keeps the head character. -/
theorem collapseSpaces_head? (l : List Char) : (collapseSpaces l).head? = l.head? := by
  induction l with
  | nil => rfl
  | cons c rest ih =>
    by_cases h : c = ' ' ∧ rest.head? = some ' '
    · simp only [collapseSpaces]
      rw [if_pos h, ih, h.2, List.head?_cons, h.1]
    · simp only [collapseSpaces]
      rw [if_neg h, List.head?_cons, List.head?_cons]

/-- Helper: newline collapsing keeps the head character. -/
theorem collapseNewlines_head? (l : List Char) : (collapseNewlines l).head? = l.head? := by
  induction l with
  | nil => rfl
  | cons c rest ih =>
    by_cases h : c = '\n' ∧ rest.head? = some '\n' ∧ rest.tail.head? = some '\n'
    · simp only [collapseNewlines]
      rw [if_pos h, ih, h.2.1, List.head?_cons, h.1]
    · simp only [collapseNewlines]
      rw [if_neg h, List.head?_cons, List.head?_cons]

/-- Helper: after space collapsing, no two consecutive spaces remain. -/
theorem collapseSpaces_no_dbl (l : List Char) : ¬ ([' ', ' '] <:+: collapseSpaces l) := by
  induction l with
  | nil => simp [collapseSpaces]
  | cons c rest ih =>
    by_cases h : c = ' ' ∧ rest.head? = some ' '
    · simpa only [collapseSpaces, if_pos h] using ih
    · simp only [collapseSpaces, if_neg h]
      intro hin
      rcases List.infix_cons_iff.mp hin with hpre | hinf
      · rcases List.cons_prefix_cons.mp hpre with ⟨hc, hpre2⟩
        have hh := head?_of_prefix_one hpre2
        rw [collapseSpaces_head? rest] at hh
        exact h ⟨hc.symm, hh⟩
      · exact ih hinf

/-- Helper: space collapsing is the identity when no two spaces are
adjacent. -/
theorem collapseSpaces_eq_self {l : List Char} (h : ¬ ([' ', ' '] <:+: l)) :
    collapseSpaces l = l := by
  induction l with
  | nil => rfl
  | cons c rest ih =>
    have hcond : ¬ (c = ' ' ∧ rest.head? = some ' ') := by
      rintro ⟨hc, hh⟩
      apply h
      cases rest with
      | nil => cases hh
      | cons d t =>
        have hd : d = ' ' := by simpa using hh
        subst hc; subst hd
        exact ⟨[], t, rfl⟩
    simp only [collapseSpaces, if_neg hcond]
    have hrest : ¬ ([' ', ' '] <:+: rest) := fun hx => h (List.infix_cons hx)
    exact congrArg (c :: ·) (ih hrest)

/-- Helper: a two-newline prefix of the collapsed list was already a prefix
before collapsing. -/
theorem collapseNewlines_dbl_lift {l : List Char}
    (h : ['\n', '\n'] <+: collapseNewlines l) : ['\n', '\n'] <+: l := by
  induction l with
  | nil => simp [collapseNewlines] at h
  | cons c rest ih =>
    by_cases hc : c = '\n' ∧ rest.head? = some '\n' ∧ rest.tail.head? = some '\n'
    · rw [collapseNewlines, if_pos hc] at h
      obtain ⟨hh, _⟩ := head2_of_prefix_two (ih h)
      cases rest with
      | nil => cases hh
      | cons d t =>
        have hd : d = '\n' := by simpa using hh
        subst hd
        rw [hc.1]
        exact ⟨t, rfl⟩
    · rw [collapseNewlines, if_neg hc] at h
      rcases List.cons_prefix_cons.mp h with ⟨hcn, hrest⟩
      have hh := head?_of_prefix_one hrest
      rw [collapseNewlines_head? rest] at hh
      cases rest with
      | nil => cases hh
      | cons d t =>
        have hd : d = '\n' := by simpa using hh
        subst hd
        rw [← hcn]
        exact ⟨t, rfl⟩

/-- Helper: after newline collapsing, no three consecutive newlines remain. -/
theorem collapseNewlines_no_tri (l : List Char) :
    ¬ (['\n', '\n', '\n'] <:+: collapseNewlines l) := by
  induction l with
  | nil => simp [collapseNewlines]
  | cons c rest ih =>
    by_cases h : c = '\n' ∧ rest.head? = some '\n' ∧ rest.tail.head? = some '\n'
    · simpa only [collapseNewlines, if_pos h] using ih
    · simp only [collapseNewlines, if_neg h]
      intro hin
      rcases List.infix_cons_iff.mp hin with hpre | hinf
      · rcases List.cons_prefix_cons.mp hpre with ⟨hc, hpre2⟩
        obtain ⟨h1, h2⟩ := head2_of_prefix_two (collapseNewlines_dbl_lift hpre2)
        exact h ⟨hc.symm, h1, h2⟩
      · exact ih hinf

/-- Helper: newline collapsing is the identity when no three newlines are
adjacent. -/
theorem collapseNewlines_eq_self {l : List Char}
    (h : ¬ (['\n', '\n', '\n'] <:+: l)) : collapseNewlines l = l := by
  induction l with
  | nil => rfl
  | cons c rest ih =>
    have hcond : ¬ (c = '\n' ∧ rest.head? = some '\n' ∧ rest.tail.head? = some '\n') := by
      rintro ⟨hc, hh1, hh2⟩
      apply h
      cases rest with
      | nil => cases hh1
      | cons d t =>
        have hd : d = '\n' := by simpa using hh1
        cases t with
        | nil => cases hh2
        | cons e u =>
          have he : e = '\n' := by simpa using hh2
          subst hc; subst hd; subst he
          exact ⟨[], u, rfl⟩
    simp only [collapseNewlines, if_neg hcond]
    have hrest : ¬ (['\n', '\n', '\n'] <:+: rest) := fun hx => h (List.infix_cons hx)
    exact congrArg (c :: ·) (ih hrest)

/-- Helper: newline collapsing cannot create a run of two spaces. -/
theorem collapseNewlines_no_dbl {l : List Char} (h : ¬ ([' ', ' '] <:+: l)) :
    ¬ ([' ', ' '] <:+: collapseNewlines l) := by
  induction l with
  | nil => simp [collapseNewlines]
  | cons c rest ih =>
    have hrest : ¬ ([' ', ' '] <:+: rest) := fun hx => h (List.infix_cons hx)
    by_cases hc : c = '\n' ∧ rest.head? = some '\n' ∧ rest.tail.head? = some '\n'
    · simpa only [collapseNewlines, if_pos hc] using ih hrest
    · simp only [collapseNewlines, if_neg hc]
      intro hin
      rcases List.infix_cons_iff.mp hin with hpre | hinf
      · rcases List.cons_prefix_cons.mp hpre with ⟨hceq, hpre2⟩
        have hh := head?_of_prefix_one hpre2
        rw [collapseNewlines_head? rest] at hh
        apply h
        cases rest with
        | nil => cases hh
        | cons d t =>
          have hd : d = ' ' := by simpa using hh
          subst hd
          rw [← hceq]
          exact ⟨[], t, rfl⟩
      · exact ih hrest hinf

/-- Helper: the head surviving `dropWhile` does not satisfy the predicate. -/
theorem dropWhile_head_not {p : Char → Bool} {l : List Char} {a : Char}
    (h : (l.dropWhile p).head? = some a) : p a = false := by
  induction l with
  | nil => cases h
  | cons c rest ih =>
    rw [List.dropWhile_cons] at h
    by_cases hc : p c = true
    · rw [if_pos hc] at h
      exact ih h
    · rw [if_neg hc] at h
      have : c = a := by simpa using h
      subst this
      simpa using hc

/-- Helper: `dropWhile` is the identity when the head does not satisfy the
predicate. -/
theorem dropWhile_eq_self_of_head {p : Char → Bool} {l : List Char}
    (h : ∀ a, l.head? = some a → p a = false) : l.dropWhile p = l := by
  cases l with
  | nil => rfl
  | cons c rest =>
    rw [List.dropWhile_cons, if_neg (by simp [h c rfl])]

/-- Helper: stripping is idempotent. -/
theorem pyStrip_idem (l : List Char) : pyStrip (pyStrip l) = pyStrip l := by
  unfold pyStrip
  set A := l.dropWhile pyIsSpace with hA
  set B := A.reverse.dropWhile pyIsSpace with hB
  have hBA : B.reverse <+: A := by
    have h2 : B <:+ A.reverse := hB ▸ List.dropWhile_suffix pyIsSpace
    have := List.reverse_prefix.mpr h2
    rwa [List.reverse_reverse] at this
  have hd1 : B.reverse.dropWhile pyIsSpace = B.reverse := by
    apply dropWhile_eq_self_of_head
    intro a ha
    cases hBR : B.reverse with
    | nil => rw [hBR] at ha; cases ha
    | cons c t =>
      obtain ⟨u, hu⟩ := hBA
      rw [hBR] at hu ha
      have hca : c = a := by simpa using ha
      have hAhead : A.head? = some a := by
        rw [← hu, ← hca]
        rfl
      exact dropWhile_head_not (hA ▸ hAhead)
  rw [hd1]
  have hd2 : B.reverse.reverse.dropWhile pyIsSpace = B := by
    rw [List.reverse_reverse]
    apply dropWhile_eq_self_of_head
    intro a ha
    exact dropWhile_head_not (hB ▸ ha)
  rw [hd2]

/-- C10: `sanitize_text` is idempotent — a second application of the tab
replacement, control-character removal, space-run collapsing, blank-line
collapsing and strip changes nothing. -/
theorem c10_sanitize_idempotent (s : String) :
    sanitize_text (sanitize_text s) = sanitize_text s := by
  unfold sanitize_text
  set t := pyStrip (collapseNewlines (collapseSpaces (removeCtrl (replaceTab s.toList)))) with ht
  rw [show (String.mk t).toList = t from rfl]
  have i1 : t.Sublist (collapseNewlines (collapseSpaces (removeCtrl (replaceTab s.toList)))) :=
    (pyStrip_contiguous _).sublist
  have i2 := collapseNewlines_sublist (collapseSpaces (removeCtrl (replaceTab s.toList)))
  have i3 := collapseSpaces_sublist (removeCtrl (replaceTab s.toList))
  have i4 : (removeCtrl (replaceTab s.toList)).Sublist (replaceTab s.toList) := by
    unfold removeCtrl
    exact List.filter_sublist _
  have hsub2 : t.Sublist (removeCtrl (replaceTab s.toList)) := (i1.trans i2).trans i3
  have hsub1 : t.Sublist (replaceTab s.toList) := hsub2.trans i4
  have h1 : '\t' ∉ t := fun hmem => replaceTab_no_tab s.toList (hsub1.subset hmem)
  have h2 : ∀ c ∈ t, isCtrlRemoved c = false := fun c hc =>
    removeCtrl_no_ctrl _ c (hsub2.subset hc)
  have h3 : ¬ ([' ', ' '] <:+: t) := by
    intro hin
    exact collapseNewlines_no_dbl (collapseSpaces_no_dbl _)
      (hin.trans (pyStrip_contiguous _))
  have h4 : ¬ (['\n', '\n', '\n'] <:+: t) := by
    intro hin
    exact collapseNewlines_no_tri _ (hin.trans (pyStrip_contiguous _))
  have h5 : pyStrip t = t := by rw [ht]; exact pyStrip_idem _
  rw [replaceTab_eq_self h1, removeCtrl_eq_self h2, collapseSpaces_eq_self h3,
      collapseNewlines_eq_self h4, h5]

/-- Helper: no JSON value starts with a backtick. -/
theorem parseValue_tick_head (fuel : ℕ) {l : List Char} (h : l.head? = some tickChar) :
    parseValue fuel l = none := by
  cases l with
  | nil => cases h
  | cons c rest =>
    have hc : c = tickChar := by simpa using h
    subst hc
    cases fuel with
    | zero => rfl
    | succ n => rfl

/-- Helper: a fence-wrapped response is not valid JSON — the direct parse
of the chain fails on it. -/
theorem jsonParseL_fenceWrap (body : List Char) : jsonParseL (fenceWrap body) = none := by
  unfold jsonParseL
  have hskip : skipW (fenceWrap body) = fenceWrap body := by
    unfold skipW
    apply dropWhile_eq_self_of_head
    intro a ha
    have h2 : tickChar = a := by
      unfold fenceWrap at ha
      simpa using ha
    subst h2
    rfl
  rw [hskip, parseValue_tick_head _ (by unfold fenceWrap; rfl)]

/-- Helper: a fence-wrapped response contains the fence marker. -/
theorem pyIn_tick3_fenceWrap (body : List Char) : pyIn tick3 (fenceWrap body) = true := rfl

/-- Helper: while the remaining body (up to its closing brace) contains no
triple backtick, the lazy group cannot stop — the whitespace-then-fence
test fails at every position. -/
theorem check_false_of_no_tick {u : List Char}
    (h : ¬ (tick3 <:+: (u ++ ['}']))) :
    tick3.isPrefixOf ((u ++ ['}'] ++ ('\n' :: tick3)).dropWhile pyIsSpace) = false := by
  induction u with
  | nil => rfl
  | cons c u' ih =>
    have h' : ¬ (tick3 <:+: (u' ++ ['}'])) := fun hx => h (List.infix_cons hx)
    rw [show ((c :: u') ++ ['}'] ++ ('\n' :: tick3)) = c :: (u' ++ ['}'] ++ ('\n' :: tick3)) from rfl]
    rw [List.dropWhile_cons]
    by_cases hsp : pyIsSpace c = true
    · rw [if_pos hsp]
      exact ih h'
    · rw [if_neg hsp]
      by_cases hc : c = tickChar
      · subst hc
        cases u' with
        | nil => rfl
        | cons d u'' =>
          by_cases hd : d = tickChar
          · subst hd
            cases u'' with
            | nil => rfl
            | cons e u3 =>
              by_cases he : e = tickChar
              · subst he
                have hp : tick3 <+: ((tickChar :: tickChar :: tickChar :: u3) ++ ['}']) :=
                  ⟨u3 ++ ['}'], rfl⟩
                exact absurd hp.isInfix h
              · have : (tickChar == e) = false := by
                  simpa using fun hx => he hx.symm
                simp [List.isPrefixOf, this]
          · have : (tickChar == d) = false := by
              simpa using fun hx => hd hx.symm
            simp [List.isPrefixOf, this]
      · have : (tickChar == c) = false := by
          simpa using fun hx => hc hx.symm
        simp [List.isPrefixOf, this]

/-- Helper: when the body up to its closing brace holds no triple backtick,
the lazy group stops exactly at the closing brace before the fence. -/
theorem fencedTail_spec (mid : List Char) (acc : List Char)
    (h : ¬ (tick3 <:+: (mid ++ ['}']))) :
    fencedTail acc (mid ++ ['}'] ++ ('\n' :: tick3)) = some (acc.reverse ++ mid ++ ['}']) := by
  induction mid generalizing acc with
  | nil =>
    show fencedTail acc ('}' :: ('\n' :: tick3)) = some (acc.reverse ++ [] ++ ['}'])
    rw [fencedTail, if_pos ⟨rfl, by rfl⟩, List.append_nil]
  | cons c mid' ih =>
    have h' : ¬ (tick3 <:+: (mid' ++ ['}'])) := fun hx => h (List.infix_cons hx)
    show fencedTail acc (c :: (mid' ++ ['}'] ++ ('\n' :: tick3))) =
      some (acc.reverse ++ (c :: mid') ++ ['}'])
    rw [fencedTail]
    rw [if_neg (by
      rintro ⟨hc, hp⟩
      rw [check_false_of_no_tick h'] at hp
      cases hp)]
    rw [ih (c :: acc) h']
    simp

/-- Helper: on a fence-wrapped brace-delimited body holding no triple
backtick, the fenced-block regex search captures exactly the body. -/
theorem reSearchFenced_fenceWrap (mid : List Char)
    (h : ¬ (tick3 <:+: ('{' :: mid ++ ['}']))) :
    reSearchFenced (fenceWrap ('{' :: mid ++ ['}'])) = some ('{' :: mid ++ ['}']) := by
  have hmid : ¬ (tick3 <:+: (mid ++ ['}'])) := fun hx => h (List.infix_cons hx)
  show reSearchFenced (tickChar :: (tickChar :: tickChar :: 'j' :: 's' :: 'o' :: 'n' :: '\n' ::
    (('{' :: mid ++ ['}']) ++ ('\n' :: tick3)))) = some ('{' :: mid ++ ['}'])
  rw [reSearchFenced]
  rw [if_pos ⟨rfl, by rfl⟩]
  have hdrop : (tickChar :: tickChar :: 'j' :: 's' :: 'o' :: 'n' :: '\n' ::
      (('{' :: mid ++ ['}']) ++ ('\n' :: tick3))).drop 2 =
      'j' :: 's' :: 'o' :: 'n' :: ('\n' :: (('{' :: mid ++ ['}']) ++ ('\n' :: tick3))) := rfl
  rw [hdrop]
  unfold fencedAfterTicks
  have hdw : (('\n' :: (('{' :: mid ++ ['}']) ++ ('\n' :: tick3))).dropWhile pyIsSpace) =
      '{' :: (mid ++ ['}'] ++ ('\n' :: tick3)) := by
    rw [List.dropWhile_cons, if_pos (by rfl)]
    rw [show (('{' :: mid ++ ['}']) ++ ('\n' :: tick3)) =
      '{' :: (mid ++ ['}'] ++ ('\n' :: tick3)) from by simp]
    rw [List.dropWhile_cons, if_neg (by decide)]
  simp only [hdw]
  rw [fencedTail_spec mid [] hmid]
  simp [Option.orElse]

/-- C8 (amended): a generation response that is a valid JSON object of the
answer schema, wrapped in fenced code-block markers, is recovered by the
fenced-block strategy of the parse chain — the inner content is extracted,
parsed, validated and returned, with no later strategy involved — provided
the JSON body itself contains no triple-backtick sequence (without that
proviso the lazy group can truncate the body; see the counterexample). -/
theorem c8_fenced_block_recovery (mid : List Char) (v : Json) (ans : MedicalAnswer)
    (htick : ¬ (tick3 <:+: ('{' :: mid ++ ['}'])))
    (hparse : jsonParseL ('{' :: mid ++ ['}']) = some v)
    (hvalid : validateMedicalAnswer v = .ok ans) :
    parseChain (fenceWrap ('{' :: mid ++ ['}'])) = .ok (ans, .fenced) := by
  unfold parseChain
  rw [jsonParseL_fenceWrap]
  dsimp only
  rw [if_pos (pyIn_tick3_fenceWrap _), reSearchFenced_fenceWrap mid htick]
  dsimp only
  rw [hparse]
  dsimp only
  unfold mdAnswer
  rw [hvalid]

set_option maxRecDepth 1000000 in
/-- C8 witness: the amended recovery theorem applied to a concrete valid
answer-schema JSON wrapped in a fenced block. -/
theorem c8_fenced_block_recovery_witness :
    (¬ (tick3 <:+: ('{' :: ("\"question\": \"q\", \"answer_summary\": \"s\", \"evidence\": [], \"confidence\": 0.5").toList ++ ['}']))) ∧
    parseChain (fenceWrap ('{' :: ("\"question\": \"q\", \"answer_summary\": \"s\", \"evidence\": [], \"confidence\": 0.5").toList ++ ['}'])) =
      .ok ({ question := "q", answer_summary := "s", evidence := [],
             confidence := JNum.toRat ⟨5, -1⟩ }, .fenced) := by
  refine ⟨by decide, ?_⟩
  have hp : jsonParseL ('{' :: ("\"question\": \"q\", \"answer_summary\": \"s\", \"evidence\": [], \"confidence\": 0.5").toList ++ ['}']) =
      some (Json.obj [("question", .str ("q")), ("answer_summary", .str ("s")),
        ("evidence", .arr []), ("confidence", .num ⟨5, -1⟩)]) := rfl
  have hv : validateMedicalAnswer
      (Json.obj [("question", .str ("q")), ("answer_summary", .str ("s")),
        ("evidence", .arr []), ("confidence", .num ⟨5, -1⟩)]) =
      .ok { question := "q", answer_summary := "s", evidence := [],
            confidence := JNum.toRat ⟨5, -1⟩ } := rfl
  exact c8_fenced_block_recovery
    (("\"question\": \"q\", \"answer_summary\": \"s\", \"evidence\": [], \"confidence\": 0.5").toList)
    (Json.obj [("question", .str ("q")), ("answer_summary", .str ("s")),
               ("evidence", .arr []), ("confidence", .num ⟨5, -1⟩)])
    { question := "q", answer_summary := "s", evidence := [],
      confidence := JNum.toRat ⟨5, -1⟩ }
    (by decide) hp hv

set_option maxRecDepth 1000000 in
/-- C8 counterexample: a valid JSON object of the answer schema whose
`answer_summary` string contains `"} \x60\x60\x60b"` — still perfectly valid
structured content — defeats the whole chain once fence-wrapped: the lazy
fenced-block group stops at the brace inside the string value, the
truncated text is reassigned to `raw_output`, the later strategies reparse
only the truncated text, and the chain ends in the final `ValueError`
instead of returning the answer.  The claim fails as stated for this
response. -/
theorem c8_counterexample :
    jsonParseL ('{' :: ("\"question\": \"q\", \"answer_summary\": \"a\x7d \x60\x60\x60b\", \"evidence\": [], \"confidence\": 0.5").toList ++ ['}']) =
      some (Json.obj [("question", .str ("q")), ("answer_summary", .str ("a\x7d \x60\x60\x60b")),
                      ("evidence", .arr []), ("confidence", .num ⟨5, -1⟩)]) ∧
    validateMedicalAnswer
        (Json.obj [("question", .str ("q")), ("answer_summary", .str ("a\x7d \x60\x60\x60b")),
                   ("evidence", .arr []), ("confidence", .num ⟨5, -1⟩)]) =
      .ok { question := "q", answer_summary := "a\x7d \x60\x60\x60b", evidence := [],
            confidence := JNum.toRat ⟨5, -1⟩ } ∧
    parseChain (fenceWrap ('{' :: ("\"question\": \"q\", \"answer_summary\": \"a\x7d \x60\x60\x60b\", \"evidence\": [], \"confidence\": 0.5").toList ++ ['}'])) =
      .error .invalidJson := by
  refine ⟨rfl, rfl, rfl⟩
